import Mathlib

/-!
# bgs: layout, geometry and image loading

A shallow embedding of `bgs.c`: the per-monitor placement computed by `drawbg`,
the monitor list built by `updategeom`, and the image-loading loop of `setup`.

Conventions.
* A C `int` is an `Int`; `/` on two `int`s is `Int.tdiv` (truncation toward zero).
  Signed overflow is undefined in C, so the embedding agrees with the program on
  every input whose intermediate values stay inside the `int` range.
* A C `double` is the `ℚ` it stands for. An `int` converts to it exactly; a
  division is the exact quotient rounded to the nearest value with a 53-bit
  significand, a tie going to the even one (`fl`), as IEEE 754 binary64 does in the
  normal range; overflow and subnormal values, far from the quotients of two
  `int`s, are not modelled. The conversion `double → int` truncates toward zero.
* Calls into Xlib, Xinerama and Imlib2 are parameters (what the library answered)
  or entries of a trace (what the program asked it to do).
-/

namespace Bgs

set_option maxRecDepth 8192

/-! ## Data model -/

/-- The image modes of the `enum` at the top of `bgs.c`. -/
inductive Mode where
  | ModeCenter
  | ModeZoom
  | ModeStretch
  | ModeFit
deriving DecidableEq, Repr

/-- The C `struct Monitor`. -/
structure Monitor where
  x : Int
  y : Int
  w : Int
  h : Int
deriving DecidableEq, Repr

/-- A decoded image, as far as `bgs.c` looks at it: its width and height. -/
structure Imlib_Image where
  width : Int
  height : Int
deriving DecidableEq, Repr

/-- The arguments of one `imlib_blend_image_onto_image` call of `drawbg`, together
with the index of the image that was selected and whether it was orientated. -/
structure Blend where
  image : Nat
  rotated : Bool
  w : Int
  h : Int
  nx : Int
  ny : Int
  nw : Int
  nh : Int
deriving DecidableEq, Repr

/-- The number of slots of `monitors` and of `images`. -/
def LENGTH_monitors : Nat := 8

/-- The macro `MAX`, used on `double`s. -/
def MAX (a b : ℚ) : ℚ := if a > b then a else b

/-- Conversion of a `double` to an `int`: the fractional part is discarded. -/
def toInt (q : ℚ) : Int := Int.tdiv q.num q.den

/-- The function `ceil` of `math.h`. -/
def ceil (q : ℚ) : ℚ := ((⌈q⌉ : Int) : ℚ)

/-- The integer nearest to `q`, a tie going to the even one. -/
def roundEven (q : ℚ) : Int :=
  if q - (⌊q⌋ : ℚ) < 1 / 2 then ⌊q⌋
  else if q - (⌊q⌋ : ℚ) > 1 / 2 then ⌊q⌋ + 1
  else if ⌊q⌋ % 2 = 0 then ⌊q⌋ else ⌊q⌋ + 1

/-- The power `2 ^ z` for an integer exponent. -/
def pow2 (z : Int) : ℚ :=
  if 0 ≤ z then ((2 ^ z.toNat : Nat) : ℚ) else 1 / ((2 ^ (-z).toNat : Nat) : ℚ)

/-- The number of halvings that take `n` below 2, at most `fuel` of them: the
position of the leading bit of `n` when `fuel` is at least `n`. -/
def ilog2 : Nat → Nat → Nat
  | 0, _ => 0
  | fuel + 1, n => if n < 2 then 0 else ilog2 fuel (n / 2) + 1

/-- The binary exponent of a nonzero `q`: the `e` with `2 ^ e ≤ |q| < 2 ^ (e + 1)`.
The leading bits of numerator and denominator give it up to one, and the comparison
settles it. -/
def binade (q : ℚ) : Int :=
  let k : Int := (ilog2 q.num.natAbs q.num.natAbs : Int) - (ilog2 q.den q.den : Int)
  if pow2 k ≤ |q| then k else k - 1

/-- Rounding of an exact result to a `double`: the nearest multiple of
`2 ^ (e - 52)`, where `e` is the binary exponent of the result, a tie going to the
multiple with an even significand. -/
def fl (q : ℚ) : ℚ :=
  ((roundEven (q * pow2 (52 - binade q)) : Int) : ℚ) * pow2 (binade q - 52)

/-- The operator `/` on two `double`s. -/
def fdiv (a b : ℚ) : ℚ := fl (a / b)

/-! ## drawbg -/

/-- The rotation step of `drawbg`: whether the image is orientated, and the width
and height the placement is computed from. -/
def orientate (rotate : Bool) (m : Monitor) (w h : Int) : Bool × Int × Int :=
  if rotate && ((decide (m.w > m.h) && decide (w < h)) ||
      (decide (m.w < m.h) && decide (w > h))) then
    (true, h, w)
  else
    (false, w, h)

/-- The `switch(mode)` of `drawbg`: the target rectangle `(nx, ny, nw, nh)`. -/
def place (mode : Mode) (m : Monitor) (w h : Int) : Int × Int × Int × Int :=
  match mode with
  | Mode.ModeCenter =>
    let nw := w
    let nh := h
    let nx := m.x + Int.tdiv (m.w - nw) 2
    let ny := m.y + Int.tdiv (m.h - nh) 2
    (nx, ny, nw, nh)
  | Mode.ModeZoom =>
    let ir : ℚ := ((Int.tdiv w h : Int) : ℚ)
    let mr : ℚ := ((Int.tdiv m.w m.h : Int) : ℚ)
    if ir > mr then
      let nh := m.h
      let nw := toInt (ceil ((Int.tdiv (w * nh) h : Int) : ℚ))
      let ny := m.y
      let nx := m.x + Int.tdiv (m.w - nw) 2
      (nx, ny, nw, nh)
    else
      let nw := m.w
      let nh := toInt (ceil ((Int.tdiv (h * nw) w : Int) : ℚ))
      let nx := m.x
      let ny := m.y + Int.tdiv (m.h - nh) 2
      (nx, ny, nw, nh)
  | Mode.ModeStretch =>
    let nw := m.w
    let nh := m.h
    let nx := m.x
    let ny := m.y
    (nx, ny, nw, nh)
  | Mode.ModeFit =>
    let factor := MAX (fdiv (w : ℚ) (m.w : ℚ)) (fdiv (h : ℚ) (m.h : ℚ))
    let nw := toInt (fdiv (w : ℚ) factor)
    let nh := toInt (fdiv (h : ℚ) factor)
    let nx := m.x + Int.tdiv (m.w - nw) 2
    let ny := m.y + Int.tdiv (m.h - nh) 2
    (nx, ny, nw, nh)

/-- The body of the `for` loop of `drawbg` from the rotation step on, for the
image in slot `k` of `images`, of width `w` and height `h`: orientate, place, and
blend the whole (orientated) image onto the target rectangle. -/
def blend (mode : Mode) (rotate : Bool) (m : Monitor) (k : Nat) (w h : Int) : Blend :=
  let o := orientate rotate m w h
  let p := place mode m o.2.1 o.2.2
  ⟨k, o.1, o.2.1, o.2.2, p.1, p.2.1, p.2.2.1, p.2.2.2⟩

/-- The body of the `for` loop of `drawbg` for monitor `i`, once the image has been
cloned: select `images[i % nimage]`, read its width and height, then `blend`. -/
def drawMonitor (mode : Mode) (rotate : Bool) (images : List Imlib_Image)
    (nimage : Nat) (i : Nat) (m : Monitor) : Blend :=
  let k := i % nimage
  let img := images.getD k ⟨0, 0⟩
  blend mode rotate m k img.width img.height

/-- The global variables of `bgs.c` that the modelled functions read or write.
`monitors` and `images` hold the slots below `nmonitor` and `nimage`: the slots
above are never read. -/
structure State where
  sx : Int
  sy : Int
  sw : Int
  sh : Int
  mode : Mode
  rotate : Bool
  running : Bool
  nmonitor : Nat
  nimage : Nat
  monitors : List Monitor
  images : List Imlib_Image
deriving DecidableEq, Repr

/-- The globals as `main` leaves them after option parsing. -/
def initial (mode : Mode) (rotate running : Bool) : State :=
  ⟨0, 0, 0, 0, mode, rotate, running, 0, 0, [], []⟩

/-- The `for(i = 0; i < nmonitor; i++)` loop of `drawbg`, `n` iterations from
index `i`. `clone i` tells whether `imlib_clone_image` succeeds in iteration `i`;
a failure ends the process through `die`. -/
def drawLoop (s : State) (clone : Nat → Bool) : Nat → Nat → Except String (List Blend)
  | 0, _ => Except.ok []
  | n + 1, i =>
    if clone i then
      match drawLoop s clone n (i + 1) with
      | Except.ok bs =>
        Except.ok (drawMonitor s.mode s.rotate s.images s.nimage i
          (s.monitors.getD i ⟨0, 0, 0, 0⟩) :: bs)
      | Except.error e => Except.error e
    else
      Except.error "Error: Cannot clone image.\n"

/-- The function `drawbg`: the blends onto the buffer, in order, or the message of
`die`. `buffer` tells whether `imlib_create_image` succeeds. -/
def drawbg (s : State) (buffer : Bool) (clone : Nat → Bool) : Except String (List Blend) :=
  if !buffer then
    Except.error "Error: Cannot allocate buffer.\n"
  else
    drawLoop s clone s.nmonitor 0

/-! ## updategeom -/

/-- The number of slots of `images`, `LENGTH(images)`. -/
def LENGTH_images : Nat := LENGTH_monitors

/-- The text `setup` prints for a file it cannot load. -/
def warning (path : String) : String :=
  "Warning: Cannot load file `" ++ path ++ "`. Ignoring.\n"

/-- What the loading loop of `setup` has done so far: the count `nimage`, the
slots of `images` below it, and the lines written to `stderr`. -/
structure Loading where
  nimage : Nat
  images : List Imlib_Image
  stderr : List String
deriving DecidableEq, Repr

/-- The loop `for(nimage = i = 0; i < c && i < LENGTH(images); i++)` of `setup`,
at most `fuel` iterations from index `i`. `load` is
`imlib_load_image_without_cache`; `c` is the length of `paths`. -/
def loadLoop (load : String → Option Imlib_Image) (paths : List String) :
    Nat → Nat → Loading → Loading
  | 0, _, st => st
  | fuel + 1, i, st =>
    if i < paths.length ∧ i < LENGTH_images then
      match load (paths.getD i "") with
      | some img =>
        loadLoop load paths fuel (i + 1)
          { st with nimage := st.nimage + 1, images := st.images ++ [img] }
      | none =>
        loadLoop load paths fuel (i + 1)
          { st with stderr := st.stderr ++ [warning (paths.getD st.nimage "")] }
    else
      st

/-- The loading loop of `setup` run to its end: it makes at most `c` iterations. -/
def loadImages (load : String → Option Imlib_Image) (paths : List String) : Loading :=
  loadLoop load paths paths.length 0 ⟨0, [], []⟩

/-- The function `setup`: the globals after it returns, or the message of `die`.
`width` and `height` are `DisplayWidth` and `DisplayHeight`, `color` tells whether
`XAllocNamedColor` succeeds. -/
def setup (load : String → Option Imlib_Image) (paths : List String)
    (width height : Int) (color : Bool) (s : State) : Except String State :=
  let l := loadImages load paths
  if l.nimage == 0 then
    Except.error "Error: No image to draw.\n"
  else
    let s := { s with
      nimage := l.nimage, images := l.images, sx := 0, sy := 0, sw := width, sh := height }
    if !color then
      Except.error "Error: Cannot allocate color.\n"
    else
      Except.ok s

/-! ## The Zoom placement of the specification -/

/-- The Zoom placement in the words of the specification: when the image is
relatively wider than the monitor (exact ratios), the target height is the monitor
height and the width is `w * m.h / h` rounded up; otherwise the target width is the
monitor width and the height is `h * m.w / w` rounded up; the other axis is
centered. -/
def zoomSpec (m : Monitor) (w h : Int) : Int × Int × Int × Int :=
  if (w : ℚ) / (h : ℚ) > (m.w : ℚ) / (m.h : ℚ) then
    let nh := m.h
    let nw := ⌈(w : ℚ) * (m.h : ℚ) / (h : ℚ)⌉
    (m.x + Int.tdiv (m.w - nw) 2, m.y, nw, nh)
  else
    let nw := m.w
    let nh := ⌈(h : ℚ) * (m.w : ℚ) / (w : ℚ)⌉
    (m.x, m.y + Int.tdiv (m.h - nh) 2, nw, nh)

/-! ## Auxiliary facts -/

theorem orientate_fst (rotate : Bool) (m : Monitor) (w h : Int) :
    (orientate rotate m w h).1 = true ↔
      rotate = true ∧ ((m.w > m.h ∧ w < h) ∨ (m.w < m.h ∧ w > h)) := by
  unfold orientate
  split <;> simp_all

theorem orientate_snd (rotate : Bool) (m : Monitor) (w h : Int) :
    (orientate rotate m w h).2 =
      if (orientate rotate m w h).1 = true then (h, w) else (w, h) := by
  unfold orientate
  split <;> simp

theorem blend_place (mode : Mode) (rotate : Bool) (m : Monitor) (k : Nat) (w h : Int) :
    ((blend mode rotate m k w h).nx, (blend mode rotate m k w h).ny,
      (blend mode rotate m k w h).nw, (blend mode rotate m k w h).nh) =
      place mode m (blend mode rotate m k w h).w (blend mode rotate m k w h).h := by
  simp [blend]

theorem orientate_pos (rotate : Bool) (m : Monitor) (w h : Int) (hw : 0 < w) (hh : 0 < h) :
    0 < (orientate rotate m w h).2.1 ∧ 0 < (orientate rotate m w h).2.2 := by
  unfold orientate
  split <;> simp [hw, hh]

theorem pow2_eq (z : Int) : pow2 z = (2 : ℚ) ^ z := by
  unfold pow2
  split
  · rename_i h
    have : z = (z.toNat : Int) := (Int.toNat_of_nonneg h).symm
    conv_rhs => rw [this]
    rw [zpow_natCast]
    push_cast
    rfl
  · rename_i h
    have h2 : 0 ≤ -z := by omega
    have : z = -((-z).toNat : Int) := by rw [Int.toNat_of_nonneg h2]; ring
    conv_rhs => rw [this]
    rw [zpow_neg, zpow_natCast]
    push_cast
    rw [one_div]

theorem roundEven_err (q : ℚ) : |((roundEven q : Int) : ℚ) - q| ≤ 1 / 2 := by
  have h1 : ((⌊q⌋ : Int) : ℚ) ≤ q := Int.floor_le q
  have h2 : q < ((⌊q⌋ : Int) : ℚ) + 1 := Int.lt_floor_add_one q
  unfold roundEven
  split_ifs with a b c
  · rw [abs_le]; constructor <;> linarith
  · rw [abs_le]; push_cast; constructor <;> linarith
  · rw [abs_le]; constructor <;> linarith
  · rw [abs_le]; push_cast; constructor <;> linarith

theorem ilog2_spec : ∀ (fuel n : Nat), n ≤ fuel → 0 < n →
    2 ^ ilog2 fuel n ≤ n ∧ n < 2 ^ (ilog2 fuel n + 1) := by
  intro fuel
  induction fuel with
  | zero => intro n h1 h2; omega
  | succ fuel ih =>
    intro n h1 h2
    unfold ilog2
    split
    · rename_i h
      simp
      omega
    · rename_i h
      have hd : n / 2 ≤ fuel := by omega
      have hp : 0 < n / 2 := by omega
      have := ih (n / 2) hd hp
      rw [pow_succ, pow_succ]
      omega

theorem binade_le (q : ℚ) (hq : 0 < q) : (2 : ℚ) ^ binade q ≤ q := by
  have habs : |q| = q := abs_of_pos hq
  unfold binade
  simp only
  split
  · rename_i h
    rw [pow2_eq, habs] at h
    exact h
  · have hn : 0 < q.num := Rat.num_pos.mpr hq
    have hnat : 0 < q.num.natAbs := Int.natAbs_pos.mpr (ne_of_gt hn)
    have hd : 0 < q.den := q.den_pos
    have sn := ilog2_spec q.num.natAbs q.num.natAbs (le_refl _) hnat
    have sd := ilog2_spec q.den q.den (le_refl _) hd
    set a := ilog2 q.num.natAbs q.num.natAbs
    set b := ilog2 q.den q.den
    have e1 : ((a : Int) - (b : Int) - 1) = (a : Int) - ((b + 1 : Nat) : Int) := by
      push_cast; ring
    rw [e1, zpow_sub₀ (by norm_num), zpow_natCast, zpow_natCast]
    have hqe : q = (q.num.natAbs : ℚ) / (q.den : ℚ) := by
      have h1 : ((q.num.natAbs : Int) : ℚ) = (q.num : ℚ) := by
        rw [Int.natAbs_of_nonneg (le_of_lt hn)]
      rw [← Int.cast_natCast, h1]
      exact (Rat.num_div_den q).symm
    have hA : ((2 : ℚ) ^ a) ≤ (q.num.natAbs : ℚ) := by exact_mod_cast sn.1
    have hB : (q.den : ℚ) ≤ (2 : ℚ) ^ (b + 1) := by exact_mod_cast le_of_lt sd.2
    have hdq : (0 : ℚ) < (q.den : ℚ) := by exact_mod_cast hd
    conv_rhs => rw [hqe]
    exact div_le_div₀ (by positivity) hA hdq hB

/-- The error of rounding a positive value in the normal range: at most half a unit
in the last place, hence at most `q * 2 ^ (-53)`. -/
theorem fl_err (q : ℚ) (hq : 0 < q) : |fl q - q| ≤ q * (2 : ℚ) ^ (-53 : Int) := by
  have hb := binade_le q hq
  have hr := roundEven_err (q * pow2 (52 - binade q))
  unfold fl
  rw [pow2_eq] at hr ⊢
  rw [pow2_eq]
  set e := binade q
  have hpos : (0 : ℚ) < (2 : ℚ) ^ (e - 52) := by positivity
  have hinv : (2 : ℚ) ^ (52 - e) * (2 : ℚ) ^ (e - 52) = 1 := by
    rw [← zpow_add₀ (by norm_num : (2 : ℚ) ≠ 0)]
    have : 52 - e + (e - 52) = 0 := by ring
    rw [this, zpow_zero]
  have key : ((roundEven (q * (2 : ℚ) ^ (52 - e)) : Int) : ℚ) * (2 : ℚ) ^ (e - 52) - q =
      (((roundEven (q * (2 : ℚ) ^ (52 - e)) : Int) : ℚ) - q * (2 : ℚ) ^ (52 - e)) *
        (2 : ℚ) ^ (e - 52) := by
    rw [sub_mul, mul_assoc, hinv, mul_one]
  rw [key, abs_mul, abs_of_pos hpos]
  have h3 : (2 : ℚ) ^ (e - 52) * (1 / 2) = (2 : ℚ) ^ e * (2 : ℚ) ^ (-53 : Int) := by
    rw [← zpow_add₀ (by norm_num : (2 : ℚ) ≠ 0)]
    have : e + -53 = (e - 52) + (-1) := by ring
    rw [this, zpow_add₀ (by norm_num : (2 : ℚ) ≠ 0)]
    norm_num
  calc |((roundEven (q * (2 : ℚ) ^ (52 - e)) : Int) : ℚ) - q * (2 : ℚ) ^ (52 - e)| *
        (2 : ℚ) ^ (e - 52)
      ≤ (1 / 2) * (2 : ℚ) ^ (e - 52) := mul_le_mul_of_nonneg_right hr (le_of_lt hpos)
    _ = (2 : ℚ) ^ e * (2 : ℚ) ^ (-53 : Int) := by rw [mul_comm, h3]
    _ ≤ q * (2 : ℚ) ^ (-53 : Int) := mul_le_mul_of_nonneg_right hb (by positivity)

theorem fl_bounds (q : ℚ) (hq : 0 < q) :
    q * (1 - 1 / 9007199254740992) ≤ fl q ∧ fl q ≤ q * (1 + 1 / 9007199254740992) := by
  have h := fl_err q hq
  have hu : (2 : ℚ) ^ (-53 : Int) = 1 / 9007199254740992 := by norm_num [zpow_neg]
  rw [hu, abs_le] at h
  constructor <;> linarith [h.1, h.2]

theorem toInt_eq_floor (q : ℚ) (h : 0 ≤ q) : toInt q = ⌊q⌋ := by
  unfold toInt
  rw [Rat.floor_def, Int.tdiv_eq_ediv (Rat.num_nonneg.mpr h) (by positivity)]

/-- One axis of the Fit placement never exceeds the monitor: whenever the factor is
at least the rounded ratio of this axis. -/
theorem fit_axis_le (W M : Int) (f : ℚ) (hW : 0 < W) (hM : 0 < M) (hb : M < 2 ^ 31)
    (hf : fdiv (W : ℚ) (M : ℚ) ≤ f) : toInt (fdiv (W : ℚ) f) ≤ M := by
  have qW : (0 : ℚ) < (W : ℚ) := by exact_mod_cast hW
  have qM : (0 : ℚ) < (M : ℚ) := by exact_mod_cast hM
  have qb : (M : ℚ) < 2147483648 := by exact_mod_cast hb
  have hq0 : (0 : ℚ) < (W : ℚ) / (M : ℚ) := div_pos qW qM
  have hg : (0 : ℚ) < (W : ℚ) / (M : ℚ) * (1 - 1 / 9007199254740992) :=
    mul_pos hq0 (by norm_num)
  have hgf : (W : ℚ) / (M : ℚ) * (1 - 1 / 9007199254740992) ≤ f :=
    le_trans (fl_bounds _ hq0).1 hf
  have hfpos : 0 < f := lt_of_lt_of_le hg hgf
  have hx : (0 : ℚ) < (W : ℚ) / f := div_pos qW hfpos
  have hx2 : (W : ℚ) / f ≤ (W : ℚ) / ((W : ℚ) / (M : ℚ) * (1 - 1 / 9007199254740992)) :=
    div_le_div_of_nonneg_left (le_of_lt qW) hg hgf
  have e : (W : ℚ) / ((W : ℚ) / (M : ℚ) * (1 - 1 / 9007199254740992)) =
      (M : ℚ) * (9007199254740992 / 9007199254740991) := by
    field_simp
    ring
  rw [e] at hx2
  have hy := (fl_bounds _ hx).2
  have hy0 := (fl_bounds _ hx).1
  have hypos : 0 ≤ fl ((W : ℚ) / f) := by
    have : (0 : ℚ) ≤ (W : ℚ) / f * (1 - 1 / 9007199254740992) :=
      mul_nonneg (le_of_lt hx) (by norm_num)
    linarith
  have hlt : fl ((W : ℚ) / f) < ((M + 1 : Int) : ℚ) := by
    push_cast
    linarith
  unfold fdiv
  rw [toInt_eq_floor _ hypos]
  have := Int.floor_lt.mpr hlt
  omega

/-- The axis whose rounded ratio is the factor falls short of the monitor by at
most one pixel. -/
theorem fit_axis_ge (W M : Int) (hW : 0 < W) (hM : 0 < M) (hb : M < 2 ^ 31) :
    M - 1 ≤ toInt (fdiv (W : ℚ) (fdiv (W : ℚ) (M : ℚ))) := by
  have qW : (0 : ℚ) < (W : ℚ) := by exact_mod_cast hW
  have qM : (0 : ℚ) < (M : ℚ) := by exact_mod_cast hM
  have qb : (M : ℚ) < 2147483648 := by exact_mod_cast hb
  have hq0 : (0 : ℚ) < (W : ℚ) / (M : ℚ) := div_pos qW qM
  have hf1 := (fl_bounds _ hq0).1
  have hf2 := (fl_bounds _ hq0).2
  have hg : (0 : ℚ) < (W : ℚ) / (M : ℚ) * (1 - 1 / 9007199254740992) :=
    mul_pos hq0 (by norm_num)
  have hfpos : 0 < fl ((W : ℚ) / (M : ℚ)) := lt_of_lt_of_le hg hf1
  have hx : (0 : ℚ) < (W : ℚ) / fl ((W : ℚ) / (M : ℚ)) := div_pos qW hfpos
  have hx2 : (W : ℚ) / ((W : ℚ) / (M : ℚ) * (1 + 1 / 9007199254740992)) ≤
      (W : ℚ) / fl ((W : ℚ) / (M : ℚ)) :=
    div_le_div_of_nonneg_left (le_of_lt qW) hfpos hf2
  have e : (W : ℚ) / ((W : ℚ) / (M : ℚ) * (1 + 1 / 9007199254740992)) =
      (M : ℚ) * (9007199254740992 / 9007199254740993) := by
    field_simp
    ring
  rw [e] at hx2
  have hy0 := (fl_bounds _ hx).1
  have hypos : 0 ≤ fl ((W : ℚ) / fl ((W : ℚ) / (M : ℚ))) := by
    have : (0 : ℚ) ≤ (W : ℚ) / fl ((W : ℚ) / (M : ℚ)) * (1 - 1 / 9007199254740992) :=
      mul_nonneg (le_of_lt hx) (by norm_num)
    linarith
  have hge : ((M - 1 : Int) : ℚ) ≤ fl ((W : ℚ) / fl ((W : ℚ) / (M : ℚ))) := by
    push_cast
    linarith
  unfold fdiv
  rw [toInt_eq_floor _ hypos]
  exact Int.le_floor.mpr hge

/-- The Fit placement for positive sizes: contained in the monitor, with one axis
at most one pixel short of it. -/
theorem place_fit (m : Monitor) (w h : Int) (hmw : 0 < m.w) (hmh : 0 < m.h)
    (hw : 0 < w) (hh : 0 < h) (bw : m.w < 2 ^ 31) (bh : m.h < 2 ^ 31) :
    (place Mode.ModeFit m w h).2.2.1 ≤ m.w ∧ (place Mode.ModeFit m w h).2.2.2 ≤ m.h ∧
      (m.w - 1 ≤ (place Mode.ModeFit m w h).2.2.1 ∨
        m.h - 1 ≤ (place Mode.ModeFit m w h).2.2.2) := by
  have enw : (place Mode.ModeFit m w h).2.2.1 =
      toInt (fdiv (w : ℚ) (MAX (fdiv (w : ℚ) (m.w : ℚ)) (fdiv (h : ℚ) (m.h : ℚ)))) := rfl
  have enh : (place Mode.ModeFit m w h).2.2.2 =
      toInt (fdiv (h : ℚ) (MAX (fdiv (w : ℚ) (m.w : ℚ)) (fdiv (h : ℚ) (m.h : ℚ)))) := rfl
  rw [enw, enh]
  unfold MAX
  split
  · rename_i hgt
    exact ⟨fit_axis_le w m.w _ hw hmw bw (le_refl _),
      fit_axis_le h m.h _ hh hmh bh (le_of_lt hgt),
      Or.inl (fit_axis_ge w m.w hw hmw bw)⟩
  · rename_i hgt
    exact ⟨fit_axis_le w m.w _ hw hmw bw (not_lt.mp hgt),
      fit_axis_le h m.h _ hh hmh bh (le_refl _),
      Or.inr (fit_axis_ge h m.h hh hmh bh)⟩

/-- The example of the specification for Fit: 800x600 on {0, 0, 1920, 1080}. -/
theorem place_fit_example (rotate : Bool) :
    (place Mode.ModeFit ⟨0, 0, 1920, 1080⟩
        (orientate rotate ⟨0, 0, 1920, 1080⟩ 800 600).2.1
        (orientate rotate ⟨0, 0, 1920, 1080⟩ 800 600).2.2).1 = 240 ∧
      (place Mode.ModeFit ⟨0, 0, 1920, 1080⟩
        (orientate rotate ⟨0, 0, 1920, 1080⟩ 800 600).2.1
        (orientate rotate ⟨0, 0, 1920, 1080⟩ 800 600).2.2).2.1 = 0 ∧
      (place Mode.ModeFit ⟨0, 0, 1920, 1080⟩
        (orientate rotate ⟨0, 0, 1920, 1080⟩ 800 600).2.1
        (orientate rotate ⟨0, 0, 1920, 1080⟩ 800 600).2.2).2.2.1 = 1440 ∧
      (place Mode.ModeFit ⟨0, 0, 1920, 1080⟩
        (orientate rotate ⟨0, 0, 1920, 1080⟩ 800 600).2.1
        (orientate rotate ⟨0, 0, 1920, 1080⟩ 800 600).2.2).2.2.2 = 1080 := by
  cases rotate <;> refine ⟨?_, ?_, ?_, ?_⟩ <;> with_unfolding_all decide

/-- The paths the loading loop still has to visit from index `i` on. -/
theorem drop_take_cons (paths : List String) (i : Nat)
    (h : i < paths.length ∧ i < LENGTH_images) :
    (paths.take LENGTH_images).drop i =
      paths.getD i "" :: (paths.take LENGTH_images).drop (i + 1) := by
  have hlen : i < (paths.take LENGTH_images).length := by
    rw [List.length_take]
    omega
  rw [List.drop_eq_getElem_cons hlen, List.getElem_take]
  simp [List.getD_eq_getElem?_getD, h.1]

theorem drop_take_nil (paths : List String) (i : Nat)
    (h : ¬ (i < paths.length ∧ i < LENGTH_images)) :
    (paths.take LENGTH_images).drop i = [] := by
  apply List.drop_eq_nil_of_le
  rw [List.length_take]
  omega

/-- The images and the count the loading loop leaves, given fuel for every path
it still has to visit. -/
theorem loadLoop_images (load : String → Option Imlib_Image) (paths : List String) :
    ∀ (fuel i : Nat) (st : Loading),
      ((paths.take LENGTH_images).drop i).length ≤ fuel →
      (loadLoop load paths fuel i st).images =
          st.images ++ ((paths.take LENGTH_images).drop i).filterMap load ∧
        (loadLoop load paths fuel i st).nimage =
          st.nimage + (((paths.take LENGTH_images).drop i).filterMap load).length := by
  intro fuel
  induction fuel with
  | zero =>
    intro i st hf
    have hnil : (paths.take LENGTH_images).drop i = [] :=
      List.length_eq_zero.mp (Nat.le_zero.mp hf)
    simp [loadLoop, hnil]
  | succ fuel ih =>
    intro i st hf
    by_cases hc : i < paths.length ∧ i < LENGTH_images
    · have hcons := drop_take_cons paths i hc
      rw [hcons] at hf ⊢
      have hf2 : ((paths.take LENGTH_images).drop (i + 1)).length ≤ fuel := by
        simpa using hf
      cases hl : load (paths.getD i "") with
      | none =>
        have e := ih (i + 1)
          { st with stderr := st.stderr ++ [warning (paths.getD st.nimage "")] } hf2
        simp only [loadLoop, hc, and_self, if_true, hl, List.filterMap_cons]
        exact e
      | some img =>
        have e := ih (i + 1)
          { st with nimage := st.nimage + 1, images := st.images ++ [img] } hf2
        simp only [loadLoop, hc, and_self, if_true, hl, List.filterMap_cons]
        rw [e.1, e.2]
        simp only [List.append_assoc, List.singleton_append, List.length_cons]
        exact ⟨trivial, by omega⟩
    · have hnil := drop_take_nil paths i hc
      simp [loadLoop, hc, hnil]

/-- The loading loop of `setup`, in closed form. -/
theorem loadImages_eq (load : String → Option Imlib_Image) (paths : List String) :
    (loadImages load paths).images = (paths.take LENGTH_images).filterMap load ∧
      (loadImages load paths).nimage = ((paths.take LENGTH_images).filterMap load).length := by
  have h := loadLoop_images load paths paths.length 0 ⟨0, [], []⟩
    (by simp [List.length_take])
  simpa [loadImages] using h

/-- What `setup` leaves in the globals when it returns. -/
theorem setup_ok (load : String → Option Imlib_Image) (paths : List String)
    (width height : Int) (color : Bool) (s s1 : State)
    (h : setup load paths width height color s = Except.ok s1) :
    s1.nimage = (loadImages load paths).nimage ∧ s1.images = (loadImages load paths).images ∧
      1 ≤ s1.nimage ∧ s1.sx = 0 ∧ s1.sy = 0 ∧ s1.sw = width ∧ s1.sh = height := by
  unfold setup at h
  simp only at h
  split at h
  · cases h
  · rename_i hn
    split at h
    · cases h
    · cases h
      have : (loadImages load paths).nimage ≠ 0 := by simpa using hn
      exact ⟨rfl, rfl, by simp only; omega, rfl, rfl, rfl, rfl⟩

/-- The loop of `drawbg`, in closed form, when every clone succeeds. -/
theorem drawLoop_ok (s : State) (clone : Nat → Bool) :
    ∀ (n i : Nat), (∀ j, i ≤ j → j < i + n → clone j = true) →
      drawLoop s clone n i = Except.ok ((List.range n).map fun j =>
        drawMonitor s.mode s.rotate s.images s.nimage (i + j)
          (s.monitors.getD (i + j) ⟨0, 0, 0, 0⟩)) := by
  intro n
  induction n with
  | zero => intro i _; rfl
  | succ n ih =>
    intro i hc
    have h0 : clone i = true := hc i (le_refl _) (by omega)
    have h1 := ih (i + 1) (fun j hj1 hj2 => hc j (by omega) (by omega))
    simp only [drawLoop, h0, if_true, h1, List.range_succ_eq_map, List.map_cons, List.map_map]
    congr 2
    apply List.map_congr_left
    intro j _
    simp only [Function.comp, Nat.add_zero]
    have : i + 1 + j = i + (j + 1) := by omega
    rw [this]

/-! ## Stretch, rotation, Center -/

/-- C5: in Stretch mode the target rectangle of every blend is the monitor
rectangle, whatever the image size and the rotate flag. -/
theorem stretch_is_monitor (rotate : Bool) (m : Monitor) (k : Nat) (w h : Int) :
    ((blend Mode.ModeStretch rotate m k w h).nx, (blend Mode.ModeStretch rotate m k w h).ny,
      (blend Mode.ModeStretch rotate m k w h).nw, (blend Mode.ModeStretch rotate m k w h).nh) =
      (m.x, m.y, m.w, m.h) := by
  simp [blend, place]

/-- C6: the image is orientated exactly when rotate is enabled and the monitor and
the image are strictly of different orientation; the placement is then computed from
the swapped width and height, and otherwise from the width and height as read. A
square monitor, a square image or a disabled rotate flag never orientates. -/
theorem rotate_iff (mode : Mode) (rotate : Bool) (m : Monitor) (k : Nat) (w h : Int) :
    ((blend mode rotate m k w h).rotated = true ↔
        rotate = true ∧ ((m.w > m.h ∧ w < h) ∨ (m.w < m.h ∧ w > h))) ∧
      (((blend mode rotate m k w h).w, (blend mode rotate m k w h).h) =
        if (blend mode rotate m k w h).rotated = true then (h, w) else (w, h)) ∧
      (((blend mode rotate m k w h).nx, (blend mode rotate m k w h).ny,
        (blend mode rotate m k w h).nw, (blend mode rotate m k w h).nh) =
        place mode m (blend mode rotate m k w h).w (blend mode rotate m k w h).h) ∧
      (m.w = m.h → (blend mode rotate m k w h).rotated = false) ∧
      (w = h → (blend mode rotate m k w h).rotated = false) ∧
      (rotate = false → (blend mode rotate m k w h).rotated = false) := by
  have hiff := orientate_fst rotate m w h
  have hsnd := orientate_snd rotate m w h
  have hr : (blend mode rotate m k w h).rotated = (orientate rotate m w h).1 := rfl
  have hw : ((blend mode rotate m k w h).w, (blend mode rotate m k w h).h) =
      (orientate rotate m w h).2 := rfl
  refine ⟨by rw [hr]; exact hiff, by rw [hw, hr]; exact hsnd, blend_place mode rotate m k w h,
    ?_, ?_, ?_⟩
  · intro hm
    rw [hr]
    cases hb : (orientate rotate m w h).1
    · rfl
    · have := hiff.mp hb
      omega
  · intro hm
    rw [hr]
    cases hb : (orientate rotate m w h).1
    · rfl
    · have := hiff.mp hb
      omega
  · intro hm
    rw [hr]
    cases hb : (orientate rotate m w h).1
    · rfl
    · have := (hiff.mp hb).1
      simp_all

/-- A portrait image on a landscape monitor is orientated, and a disabled rotate
flag leaves it alone. -/
theorem rotate_iff_witness :
    (blend Mode.ModeCenter true ⟨0, 0, 1920, 1080⟩ 0 600 800).rotated = true ∧
      (blend Mode.ModeCenter false ⟨0, 0, 1920, 1080⟩ 0 600 800).rotated = false := by
  have h1 := rotate_iff Mode.ModeCenter true ⟨0, 0, 1920, 1080⟩ 0 600 800
  have h2 := rotate_iff Mode.ModeCenter false ⟨0, 0, 1920, 1080⟩ 0 600 800
  exact ⟨h1.1.mpr ⟨rfl, Or.inl ⟨by decide, by decide⟩⟩, h2.2.2.2.2.2 rfl⟩

/-- C4: in Center mode the target size is the size of the (possibly orientated)
image and the target position is the monitor origin plus half the difference of the
sizes, halved with C integer division. An image at least two pixels wider than the
monitor starts left of it and ends right of it, and likewise for the height. -/
theorem center_placement (rotate : Bool) (m : Monitor) (k : Nat) (w h : Int) :
    (blend Mode.ModeCenter rotate m k w h).nw = (blend Mode.ModeCenter rotate m k w h).w ∧
      (blend Mode.ModeCenter rotate m k w h).nh = (blend Mode.ModeCenter rotate m k w h).h ∧
      (blend Mode.ModeCenter rotate m k w h).nx =
        m.x + Int.tdiv (m.w - (blend Mode.ModeCenter rotate m k w h).w) 2 ∧
      (blend Mode.ModeCenter rotate m k w h).ny =
        m.y + Int.tdiv (m.h - (blend Mode.ModeCenter rotate m k w h).h) 2 ∧
      ((blend Mode.ModeCenter rotate m k w h).w ≥ m.w + 2 →
        (blend Mode.ModeCenter rotate m k w h).nx < m.x ∧
        m.x + m.w < (blend Mode.ModeCenter rotate m k w h).nx +
          (blend Mode.ModeCenter rotate m k w h).nw) ∧
      ((blend Mode.ModeCenter rotate m k w h).h ≥ m.h + 2 →
        (blend Mode.ModeCenter rotate m k w h).ny < m.y ∧
        m.y + m.h < (blend Mode.ModeCenter rotate m k w h).ny +
          (blend Mode.ModeCenter rotate m k w h).nh) := by
  have key : ∀ a b : Int, b ≥ a + 2 → Int.tdiv (a - b) 2 < 0 ∧ a < Int.tdiv (a - b) 2 + b := by
    intro a b hab
    have h1 : Int.tdiv (a - b) 2 = -((b - a) / 2) := by
      have : a - b = -(b - a) := by ring
      rw [this, Int.neg_tdiv, Int.tdiv_eq_ediv (by omega) (by decide)]
    rw [h1]
    omega
  refine ⟨rfl, rfl, rfl, rfl, ?_, ?_⟩
  · intro hw
    have := key m.w _ hw
    have e : (blend Mode.ModeCenter rotate m k w h).nx =
        m.x + Int.tdiv (m.w - (blend Mode.ModeCenter rotate m k w h).w) 2 := rfl
    have e2 : (blend Mode.ModeCenter rotate m k w h).nw =
        (blend Mode.ModeCenter rotate m k w h).w := rfl
    rw [e, e2]
    omega
  · intro hh
    have := key m.h _ hh
    have e : (blend Mode.ModeCenter rotate m k w h).ny =
        m.y + Int.tdiv (m.h - (blend Mode.ModeCenter rotate m k w h).h) 2 := rfl
    have e2 : (blend Mode.ModeCenter rotate m k w h).nh =
        (blend Mode.ModeCenter rotate m k w h).h := rfl
    rw [e, e2]
    omega

/-- A 2560x1440 image centered on a 1920x1080 monitor starts at (-320, -180). -/
theorem center_placement_witness :
    (blend Mode.ModeCenter true ⟨0, 0, 1920, 1080⟩ 0 2560 1440).nx < 0 ∧
      (blend Mode.ModeCenter true ⟨0, 0, 1920, 1080⟩ 0 2560 1440).ny < 0 :=
  ⟨((center_placement true ⟨0, 0, 1920, 1080⟩ 0 2560 1440).2.2.2.2.1 (by decide)).1,
    ((center_placement true ⟨0, 0, 1920, 1080⟩ 0 2560 1440).2.2.2.2.2 (by decide)).1⟩

/-! ## Fit -/

/-- C2, as stated, fails: in Fit mode a 1000x400 image on the monitor
{0, 0, 1920, 1080} is not orientated and gets the target 1919x768 at (0, 156). The
factor is the double nearest to 1000 / 1920, and 1000 divided by it rounds to the
double just below 1920, which truncates to 1919: neither the width nor the height
of the target is that of the monitor. -/
theorem fit_short_of_monitor :
    (blend Mode.ModeFit true ⟨0, 0, 1920, 1080⟩ 0 1000 400).rotated = false ∧
      (blend Mode.ModeFit true ⟨0, 0, 1920, 1080⟩ 0 1000 400).nx = 0 ∧
      (blend Mode.ModeFit true ⟨0, 0, 1920, 1080⟩ 0 1000 400).ny = 156 ∧
      (blend Mode.ModeFit true ⟨0, 0, 1920, 1080⟩ 0 1000 400).nw = 1919 ∧
      (blend Mode.ModeFit true ⟨0, 0, 1920, 1080⟩ 0 1000 400).nh = 768 ∧
      ¬ ((blend Mode.ModeFit true ⟨0, 0, 1920, 1080⟩ 0 1000 400).nw = 1920 ∨
        (blend Mode.ModeFit true ⟨0, 0, 1920, 1080⟩ 0 1000 400).nh = 1080) := by
  refine ⟨?_, ?_, ?_, ?_, ?_, ?_⟩ <;> with_unfolding_all decide

/-- C2, amended: in Fit mode, with the factor and the two quotients computed in
double arithmetic as `drawbg` does and the quotients truncated, the target of an
image of positive size on a monitor of positive size (a C `int`, hence below 2^31)
is no wider and no higher than the monitor, and its width or its height is at most
one pixel short of the monitor. On the monitor {0, 0, 1920, 1080} an 800x600 image
gets the target 1440x1080 at (240, 0). -/
theorem fit_contained (rotate : Bool) (m : Monitor) (k : Nat) (w h : Int)
    (hmw : 0 < m.w) (hmh : 0 < m.h) (hw : 0 < w) (hh : 0 < h)
    (bw : m.w < 2 ^ 31) (bh : m.h < 2 ^ 31) :
    ((blend Mode.ModeFit rotate m k w h).nw ≤ m.w ∧
      (blend Mode.ModeFit rotate m k w h).nh ≤ m.h ∧
      (m.w - 1 ≤ (blend Mode.ModeFit rotate m k w h).nw ∨
        m.h - 1 ≤ (blend Mode.ModeFit rotate m k w h).nh)) ∧
      ((blend Mode.ModeFit rotate ⟨0, 0, 1920, 1080⟩ k 800 600).nx = 240 ∧
        (blend Mode.ModeFit rotate ⟨0, 0, 1920, 1080⟩ k 800 600).ny = 0 ∧
        (blend Mode.ModeFit rotate ⟨0, 0, 1920, 1080⟩ k 800 600).nw = 1440 ∧
        (blend Mode.ModeFit rotate ⟨0, 0, 1920, 1080⟩ k 800 600).nh = 1080) := by
  constructor
  · have hp := orientate_pos rotate m w h hw hh
    exact place_fit m _ _ hmw hmh hp.1 hp.2 bw bh
  · exact place_fit_example rotate

/-- The example of the specification, through `fit_contained`. -/
theorem fit_contained_witness :
    (blend Mode.ModeFit true ⟨0, 0, 1920, 1080⟩ 0 800 600).nw ≤ 1920 ∧
      (blend Mode.ModeFit true ⟨0, 0, 1920, 1080⟩ 0 800 600).nh = 1080 :=
  ⟨(fit_contained true ⟨0, 0, 1920, 1080⟩ 0 800 600
      (by decide) (by decide) (by decide) (by decide) (by decide) (by decide)).1.1,
    (fit_contained true ⟨0, 0, 1920, 1080⟩ 0 800 600
      (by decide) (by decide) (by decide) (by decide) (by decide) (by decide)).2.2.2.2⟩

/-! ## Zoom -/

/-- C1: in Zoom mode a 1900x1000 image on the monitor {0, 0, 1920, 1080} is not
orientated and gets the target 1920x1010 at (0, 35): the target height is below the
monitor height, so the monitor is not covered. -/
theorem zoom_not_cover :
    (blend Mode.ModeZoom true ⟨0, 0, 1920, 1080⟩ 0 1900 1000).rotated = false ∧
      (blend Mode.ModeZoom true ⟨0, 0, 1920, 1080⟩ 0 1900 1000).nx = 0 ∧
      (blend Mode.ModeZoom true ⟨0, 0, 1920, 1080⟩ 0 1900 1000).ny = 35 ∧
      (blend Mode.ModeZoom true ⟨0, 0, 1920, 1080⟩ 0 1900 1000).nw = 1920 ∧
      (blend Mode.ModeZoom true ⟨0, 0, 1920, 1080⟩ 0 1900 1000).nh = 1010 ∧
      ¬ ((blend Mode.ModeZoom true ⟨0, 0, 1920, 1080⟩ 0 1900 1000).nw ≥ 1920 ∧
        (blend Mode.ModeZoom true ⟨0, 0, 1920, 1080⟩ 0 1900 1000).nh ≥ 1080) := by
  refine ⟨?_, ?_, ?_, ?_, ?_, ?_⟩ <;> with_unfolding_all decide

/-- C3: the Zoom placement of `drawbg` differs from the placement the specification
describes. For a 1900x1000 image on {0, 0, 1920, 1080} the code matches the width
(target 1920x1010 at (0, 35)) where the specification matches the height (target
2052x1080 at (-66, 0)); for a 700x500 image both match the width, and the code
truncates the height to 1371 where the specification rounds it up to 1372. -/
theorem zoom_differs_from_spec :
    place Mode.ModeZoom ⟨0, 0, 1920, 1080⟩ 1900 1000 = (0, 35, 1920, 1010) ∧
      zoomSpec ⟨0, 0, 1920, 1080⟩ 1900 1000 = (-66, 0, 2052, 1080) ∧
      place Mode.ModeZoom ⟨0, 0, 1920, 1080⟩ 700 500 = (0, -145, 1920, 1371) ∧
      zoomSpec ⟨0, 0, 1920, 1080⟩ 700 500 = (0, -146, 1920, 1372) := by
  refine ⟨?_, ?_, ?_, ?_⟩ <;> with_unfolding_all decide

/-! ## Image assignment -/

/-- C7: once `setup` has returned, the image count is at least 1, and for any
monitor list `drawbg` (its buffer and clones allocated) makes one blend per monitor,
in order, the blend of monitor `i` using image number `i % nimage`, which is below
`nimage` and a slot of the loaded images. -/
theorem image_of_monitor (load : String → Option Imlib_Image) (paths : List String)
    (width height : Int) (color : Bool) (s0 s1 : State)
    (h : setup load paths width height color s0 = Except.ok s1)
    (monitors : List Monitor) (clone : Nat → Bool)
    (hc : ∀ i, i < monitors.length → clone i = true) :
    1 ≤ s1.nimage ∧
      ∃ bs, drawbg { s1 with nmonitor := monitors.length, monitors := monitors } true clone =
          Except.ok bs ∧
        bs.length = monitors.length ∧
        ∀ i, i < monitors.length →
          ∃ b, bs[i]? = some b ∧ b.image = i % s1.nimage ∧ i % s1.nimage < s1.nimage ∧
            i % s1.nimage < s1.images.length := by
  have hs := setup_ok load paths width height color s0 s1 h
  have hl := loadImages_eq load paths
  have hlen : s1.images.length = s1.nimage := by
    rw [hs.1, hs.2.1, hl.1, hl.2]
  have hpos : 1 ≤ s1.nimage := hs.2.2.1
  have e := drawLoop_ok { s1 with nmonitor := monitors.length, monitors := monitors } clone
    monitors.length 0 (fun j _ hj => hc j (by omega))
  refine ⟨hpos, (List.range monitors.length).map (fun j =>
    drawMonitor s1.mode s1.rotate s1.images s1.nimage j (monitors.getD j ⟨0, 0, 0, 0⟩)),
    ?_, ?_, ?_⟩
  · simp only [drawbg, Bool.not_true, Bool.false_eq_true, if_false]
    rw [e]
    simp only [Nat.zero_add]
  · simp
  · intro i hi
    have hmod : i % s1.nimage < s1.nimage := Nat.mod_lt _ (by omega)
    have hlt : i % s1.nimage < s1.images.length := by omega
    refine ⟨drawMonitor s1.mode s1.rotate s1.images s1.nimage i
      (monitors.getD i ⟨0, 0, 0, 0⟩), ?_, ?_, hmod, hlt⟩
    · rw [List.getElem?_map, List.getElem?_range hi]
      rfl
    · simp [drawMonitor, blend]

/-- Three monitors and two images: monitor 2 is drawn with image 0. -/
theorem image_of_monitor_witness :
    ∃ bs, drawbg
        { (⟨0, 0, 1920, 1080, Mode.ModeFit, true, false, 0, 2, [],
            [⟨800, 600⟩, ⟨600, 800⟩]⟩ : State) with
          nmonitor := [(⟨0, 0, 1920, 1080⟩ : Monitor), ⟨1920, 0, 1920, 1080⟩,
            ⟨3840, 0, 1080, 1920⟩].length
          monitors := [⟨0, 0, 1920, 1080⟩, ⟨1920, 0, 1920, 1080⟩, ⟨3840, 0, 1080, 1920⟩] }
        true (fun _ => true) = Except.ok bs ∧ bs.length = 3 :=
  let r := image_of_monitor
    (fun p => if p = "a.png" then some ⟨800, 600⟩ else
      if p = "b.png" then some ⟨600, 800⟩ else none)
    ["a.png", "b.png"] 1920 1080 true (initial Mode.ModeFit true false)
    ⟨0, 0, 1920, 1080, Mode.ModeFit, true, false, 0, 2, [], [⟨800, 600⟩, ⟨600, 800⟩]⟩
    (by rfl)
    [⟨0, 0, 1920, 1080⟩, ⟨1920, 0, 1920, 1080⟩, ⟨3840, 0, 1080, 1920⟩]
    (fun _ => true) (fun _ _ => rfl)
  match r.2 with
  | ⟨bs, h1, h2, _⟩ => ⟨bs, h1, h2⟩

/-! ## updategeom -/

/-- C9, as stated, fails: of nine given paths of which only the ninth decodes,
`setup` visits the first eight and dies with "No image to draw", although a given
path decodes. -/
theorem setup_ninth_path :
    setup (fun p => if p = "9.png" then some ⟨800, 600⟩ else none)
        ["1.png", "2.png", "3.png", "4.png", "5.png", "6.png", "7.png", "8.png", "9.png"]
        1920 1080 true (initial Mode.ModeFit true false) =
        Except.error "Error: No image to draw.\n" ∧
      ¬ (∀ p ∈ ["1.png", "2.png", "3.png", "4.png", "5.png", "6.png", "7.png", "8.png",
          "9.png"], (fun p => if p = "9.png" then some (⟨800, 600⟩ : Imlib_Image) else none) p =
            none) := by
  refine ⟨by rfl, ?_⟩
  intro h
  have := h "9.png" (by decide)
  simp at this

/-- C9, amended: the image loading of `setup` is determined by the first 8 given
paths. The loaded images are one handle per decoding path among them, in path
order, and `nimage` is their number; `setup` dies with "No image to draw" exactly
when none of the first 8 paths decodes, and when it returns the globals hold these
images and this count. -/
theorem setup_images (load : String → Option Imlib_Image) (paths : List String)
    (width height : Int) (color : Bool) (s : State) :
    (loadImages load paths).images = (paths.take 8).filterMap load ∧
      (loadImages load paths).nimage = ((paths.take 8).filterMap load).length ∧
      (setup load paths width height color s = Except.error "Error: No image to draw.\n" ↔
        ∀ p ∈ paths.take 8, load p = none) ∧
      (∀ s1, setup load paths width height color s = Except.ok s1 →
        s1.images = (paths.take 8).filterMap load ∧
        s1.nimage = ((paths.take 8).filterMap load).length) := by
  have hl := loadImages_eq load paths
  have h8 : LENGTH_images = 8 := rfl
  rw [h8] at hl
  refine ⟨hl.1, hl.2, ?_, ?_⟩
  · have hnil : ((paths.take 8).filterMap load).length = 0 ↔
        ∀ p ∈ paths.take 8, load p = none := by
      rw [List.length_eq_zero, List.filterMap_eq_nil_iff]
    rw [← hnil, ← hl.2]
    unfold setup
    simp only
    split
    · rename_i hn
      simpa using hn
    · rename_i hn
      have hn2 : (loadImages load paths).nimage ≠ 0 := by simpa using hn
      constructor
      · intro h
        split at h
        · exact absurd (Except.error.inj h) (by decide)
        · cases h
      · intro h
        exact absurd h hn2
  · intro s1 h
    have hs := setup_ok load paths width height color s s1 h
    rw [hs.1, hs.2.1]
    exact ⟨hl.1, hl.2⟩

/-- Three paths, the second of which does not decode: two images, in order. -/
theorem setup_images_witness :
    ∃ s1, setup (fun p => if p = "b.png" then none else some ⟨800, 600⟩)
        ["a.png", "b.png", "c.png"] 1920 1080 true (initial Mode.ModeFit true false) =
        Except.ok s1 ∧ s1.nimage = 2 :=
  ⟨_, rfl, ((setup_images (fun p => if p = "b.png" then none else some ⟨800, 600⟩)
    ["a.png", "b.png", "c.png"] 1920 1080 true (initial Mode.ModeFit true false)).2.2.2
      _ rfl).2⟩

/-- C10: of two given paths that both fail to load, the warning for the second
names the first: the text printed is `paths[nimage]`, not `paths[i]`. -/
theorem warning_names_wrong_path :
    (loadImages (fun _ => none) ["a.png", "b.png"]).stderr =
        [warning "a.png", warning "a.png"] ∧
      (loadImages (fun _ => none) ["a.png", "b.png"]).stderr ≠
        [warning "a.png", warning "b.png"] := by
  decide

end Bgs
